import Mathlib

/-!
Shallow embedding of src/email2pdf/email2pdf.py (email2pdf2).

Conventions:
* Python strings are Lean `String` (operated on via `String.data : List Char`).
* Bytes are `List Nat`.
* External collaborators (the stdlib header decoder `email.header.decode_header`,
  charset codecs, `chardet`, `mimetypes`, libmagic sniffing, the network fetch,
  the filesystem) are passed in as explicit function / value parameters:
  the filesystem is the list of existing file paths, and writing a file conses
  its path onto that list.
* Parts of the parsed message are modelled as a structure; the message itself is
  the pre-order walk `message.walk()` as a `List Part`.  Python compares parts
  by object identity; the model compares whole structures, with distinctness of
  the `pid` field standing in for distinct identities.
-/

namespace Email2pdf

/-! ### Generic string machinery (List Char based, kernel-computable) -/

/-- Python str.rstrip() whitespace class (the ASCII cases). -/
def pyWhitespace (c : Char) : Bool :=
  c == ' ' || c == '\t' || c == '\n' || c == '\r' || c == '\x0b' || c == '\x0c'

/-- Python str.rstrip() with no arguments. -/
def rstrip (s : String) : String :=
  ⟨(s.data.reverse.dropWhile pyWhitespace).reverse⟩

/-- One step bound for literal reg-exp free substitution: removes every
occurrence of the (non-empty) pattern, scanning left to right, as
re.subn(pattern, str) does for a pattern with no metacharacters. -/
def replaceAllAux (pat : List Char) : Nat → List Char → List Char
  | 0, s => s
  | _ + 1, [] => []
  | fuel + 1, c :: rest =>
    if pat.isPrefixOf (c :: rest) then
      replaceAllAux pat fuel ((c :: rest).drop pat.length)
    else
      c :: replaceAllAux pat fuel rest

/-- re.subn(pat, s) for a literal pattern: remove all occurrences. -/
def removeAll (pat s : String) : String :=
  ⟨replaceAllAux pat.data s.data.length s.data⟩

/-- Is pat a contiguous sublist of the haystack. -/
def listContainsSub (pat : List Char) : List Char → Bool
  | [] => pat.isPrefixOf ([] : List Char)
  | c :: rest => pat.isPrefixOf (c :: rest) || listContainsSub pat rest

/-- str.lower() restricted to the ASCII case mapping. -/
def toLowerStr (s : String) : String := ⟨s.data.map Char.toLower⟩

/-- Python str.splitlines() (modelled for the usual terminators
newline, carriage return, and the CR LF pair). -/
def splitlinesAux (cur : List Char) : List Char → List (List Char)
  | [] => [cur.reverse]
  | '\r' :: '\n' :: rest =>
    cur.reverse :: (if rest.isEmpty then [] else splitlinesAux [] rest)
  | '\r' :: rest =>
    cur.reverse :: (if rest.isEmpty then [] else splitlinesAux [] rest)
  | '\n' :: rest =>
    cur.reverse :: (if rest.isEmpty then [] else splitlinesAux [] rest)
  | c :: rest => splitlinesAux (c :: cur) rest

def splitlines (l : List Char) : List (List Char) :=
  if l.isEmpty then [] else splitlinesAux [] l

/-- html.escape with default quoting, character by character (equivalent to the
stdlib's sequential replacements, ampersand first). -/
def escapeChar (c : Char) : List Char :=
  if c == '&' then "&amp;".data
  else if c == '<' then "&lt;".data
  else if c == '>' then "&gt;".data
  else if c == '"' then "&quot;".data
  else if c == '\'' then "&#x27;".data
  else [c]

def htmlEscape (s : String) : String := ⟨(s.data.map escapeChar).flatten⟩

/-- Join char-lists with a single separating character. -/
def joinSepChar (sep : Char) : List (List Char) → List Char
  | [] => []
  | [l] => l
  | l :: ls => l ++ sep :: joinSepChar sep ls

/-- Greedy word wrap: accumulate words onto the current line while the line
stays within the width, otherwise emit the line and start a new one.
Modelled from the documented behaviour of the stdlib textwrap.fill
(an external library): break on word boundaries at the given width. -/
def wrapAux (width : Nat) : List Char → List (List Char) → List (List Char)
  | cur, [] => [cur]
  | cur, w :: rest =>
    if cur.length + 1 + w.length ≤ width then
      wrapAux width (cur ++ ' ' :: w) rest
    else
      cur :: wrapAux width w rest

def wrapGreedy (width : Nat) : List (List Char) → List (List Char)
  | [] => []
  | w :: rest => wrapAux width w rest

/-- textwrap.fill(line, width): wrap one (terminator-free) line, joining the
wrapped rows with newlines. -/
def fill (width : Nat) (line : List Char) : List Char :=
  joinSepChar '\n' (wrapGreedy width (line.splitOn ' '))

/-- Little-endian decimal digits of a positive Nat; the first argument is
fuel (n itself always suffices, one digit per division by ten). -/
def natReprAux : Nat → Nat → List Char
  | 0, _ => []
  | _ + 1, 0 => []
  | fuel + 1, n + 1 =>
    Char.ofNat (((n + 1) % 10) + 48) :: natReprAux fuel ((n + 1) / 10)

/-- Decimal numeral for a Nat, modelling Python str(counter). -/
def natRepr (n : Nat) : String :=
  if n == 0 then "0" else ⟨(natReprAux n n).reverse⟩

/-! ### The data model -/

/-- One node of the parsed MIME tree, as the Python code observes it.
payloadRaw is get_payload(decode=False) (the transfer-encoded text);
payloadBytes is get_payload(decode=True) (the transfer-decoded bytes). -/
structure Part where
  pid : Nat
  contentType : String := ""
  contentTypeName : Option String := none
  contentTransferEncoding : Option String := none
  contentId : Option String := none
  filename : Option String := none
  isMultipart : Bool := false
  contentCharset : Option String := none
  payloadRaw : String := ""
  payloadBytes : List Nat := []
deriving DecidableEq

/-- The pre-order part walk of the message. -/
abbrev Message := List Part

/-! ### Part Finder (email2pdf.py lines 600-618, 650-668) -/

def find_part_by_content_type (message : Message) (content_type : String) : Option Part :=
  message.find? (fun part => part.contentType == content_type)

def find_part_by_content_id (message : Message) (content_id : String) : Option Part :=
  message.find? (fun part =>
    part.contentId == some content_id || part.contentId == some ("<" ++ content_id ++ ">"))

def find_part_by_content_type_name (message : Message) (content_type_name : String) : Option Part :=
  message.find? (fun part => part.contentTypeName == some content_type_name)

def MIME_TYPES_BLACKLIST : List String := ["text/html", "text/plain"]

def find_all_attachments (message : Message) (parts_to_ignore : List Part) : List Part :=
  message.filter (fun part =>
    !(parts_to_ignore.contains part) && !part.isMultipart
      && !(MIME_TYPES_BLACKLIST.contains part.contentType))

def filter_filenamed_parts (parts : List Part) : List Part :=
  parts.filter (fun part => part.filename.isSome)

/-- get_content_id: strip all leading angle-opens and trailing angle-closes
(Python lstrip / rstrip strip greedily; a falsy empty header is returned
unmodified, which coincides with stripping it). -/
def get_content_id (part : Part) : Option String :=
  part.contentId.map (fun cid =>
    ⟨((cid.data.dropWhile (fun c => c == '<')).reverse.dropWhile
        (fun c => c == '>')).reverse⟩)

/-! ### Header Decoder (email2pdf.py lines 704-720, 575-587)

The stdlib decoder email.header.decode_header is external; a value of type
HeaderSegment is one element of its result list: either an undecoded text
fragment (charset None) or the raw bytes of one encoded word together with
its declared charset.  The decoding of bytes in a named charset
(Python str(bytes, charset)) is likewise external and passed in as dec. -/

abbrev HeaderSegment := (String ⊕ List Nat) × Option String

/-- Python: element1 or ASCII (both None and the empty string fall back). -/
def charsetOrASCII : Option String → String
  | none => "ASCII"
  | some cs => if cs == "" then "ASCII" else cs

/-- get_utf8_header: fold the decoded segments together with no separator. -/
def get_utf8_header (dec : List Nat → String → String)
    (decoded_header : List HeaderSegment) : String :=
  decoded_header.foldl
    (fun hdr element =>
      match element.1 with
      | Sum.inl s => hdr ++ s
      | Sum.inr bs => hdr ++ dec bs (charsetOrASCII element.2))
    ""

/-- extract_part_filename: the declared filename, decoding only the FIRST
segment returned by the header decoder and only when that segment carries a
charset.  (The stdlib decoder attaches a charset only to byte segments; the
text-with-charset case cannot arise from it and is modelled as the undecoded
branch.  dh is the external decode_header.) -/
def extract_part_filename (dh : String → List HeaderSegment)
    (dec : List Nat → String → String) (part : Part) : Option String :=
  match part.filename with
  | none => none
  | some filename =>
    match dh filename with
    | (Sum.inr bs, some cs) :: _ => some (dec bs cs)
    | _ => some filename

/-! ### Filename utilities (email2pdf.py lines 590-597, 641-647) -/

def AUTOCALCULATED_FILENAME_EXTENSION_BLACKLIST : List String := [".jpe", ".jpeg"]

def AUTOGENERATED_ATTACHMENT_PLACEHOLDER : String := "floating_attachment"

/-- sorted(list(s))0 for a finite set of strings is its minimum. -/
def minString : List String → Option String
  | [] => none
  | x :: xs => some (xs.foldl (fun a b => if b < a then b else a) x)

/-- get_type_extension: extensions guessed by the (external) mimetypes table,
minus the blacklist; the alphabetically first survivor, if any.
(Set semantics: duplicates do not affect the minimum.) -/
def get_type_extension (guessAllExtensions : String → List String)
    (content_type : String) : Option String :=
  let filetypes := (guessAllExtensions content_type).filter
    (fun e => !(AUTOCALCULATED_FILENAME_EXTENSION_BLACKLIST.contains e))
  minString filetypes

/-- Index of the last occurrence of a character, if any. -/
def lastIdxOf (c : Char) (l : List Char) : Option Nat :=
  (l.reverse.findIdx? (fun d => d == c)).map (fun i => l.length - 1 - i)

/-- os.path.splitext (posix rules): split at the last dot of the basename
unless the basename up to that dot is entirely dots. -/
def splitext (p : String) : String × String :=
  let chars := p.data
  let fIdx := match lastIdxOf '/' chars with
    | none => 0
    | some s => s + 1
  match lastIdxOf '.' chars with
  | none => (p, "")
  | some dotIndex =>
    if fIdx ≤ dotIndex
        && ((chars.drop fIdx).take (dotIndex - fIdx)).any (fun c => !(c == '.'))
    then (⟨chars.take dotIndex⟩, ⟨chars.drop dotIndex⟩)
    else (p, "")

/-- The while loop of get_unique_version, with enough fuel; fs is the set of
existing file paths. -/
def get_unique_version_aux (fs : List String) (base ext : String) :
    Nat → String → Nat → String
  | 0, filename, _ => filename
  | fuel + 1, filename, counter =>
    if filename ∈ fs then
      get_unique_version_aux fs base ext fuel
        (base ++ "_" ++ natRepr counter ++ ext) (counter + 1)
    else filename

/-- get_unique_version: insert an ascending numeric suffix before the
extension until the name is free.  fs.length + 1 probes always suffice
because the probed names are pairwise distinct (proved below). -/
def get_unique_version (fs : List String) (filename : String) : String :=
  let file_name_parts := splitext filename
  get_unique_version_aux fs file_name_parts.1 file_name_parts.2
    (fs.length + 1) filename 1

/-! ### Attachment Extractor (email2pdf.py lines 499-534) -/

/-- Does the string contain a date-shaped substring, i.e. a match of the
pattern four digits, dash-or-underscore, two digits, dash-or-underscore,
two digits (re.search of the date regex)? -/
def dateSep (c : Char) : Bool := c == '-' || c == '_'

def dateShapedAt : List Char → Bool
  | d1 :: d2 :: d3 :: d4 :: s1 :: d5 :: d6 :: s2 :: d7 :: d8 :: _ =>
    d1.isDigit && d2.isDigit && d3.isDigit && d4.isDigit && dateSep s1
      && d5.isDigit && d6.isDigit && dateSep s2 && d7.isDigit && d8.isDigit
  | _ => false

def containsDateShaped : List Char → Bool
  | [] => false
  | c :: rest => dateShapedAt (c :: rest) || containsDateShaped rest

/-- The filename-derivation prefix of the loop body of handle_attachments
(lines 506-517): none means the part is skipped (continue) because it has no
usable filename and ignore_floating_attachments is set.  Python falsiness of
both None and the empty string is modelled by the getD-empty comparisons. -/
def attachment_candidate_filename (dh : String → List HeaderSegment)
    (dec : List Nat → String → String) (guessAllExtensions : String → List String)
    (ignore_floating_attachments : Bool) (part : Part) : Option String :=
  let filename0 := extract_part_filename dh dec part
  if filename0.getD "" == "" then
    if ignore_floating_attachments then none
    else
      let filename1 := (get_content_id part).getD ""
      let filename2 :=
        if filename1 == "" then AUTOGENERATED_ATTACHMENT_PLACEHOLDER else filename1
      match get_type_extension guessAllExtensions part.contentType with
      | some extension =>
        if extension == "" then some filename2 else some (filename2 ++ extension)
      | none => some filename2
  else filename0

/-- One iteration of the extraction loop of handle_attachments: skip the part
(continue) or write one file.  today is datetime.now().strftime of the date
followed by a dash; joining output_directory and a (relative) filename is
modelled as slash concatenation. -/
def handle_attachment_step (dh : String → List HeaderSegment)
    (dec : List Nat → String → String) (guessAllExtensions : String → List String)
    (output_directory : String) (add_prefix_date : Bool) (today : String)
    (ignore_floating_attachments : Bool) (fsAcc : List String) (part : Part) :
    List String :=
  match attachment_candidate_filename dh dec guessAllExtensions
      ignore_floating_attachments part with
  | none => fsAcc
  | some filename0 =>
    let filename :=
      if add_prefix_date && !(containsDateShaped filename0.data) then
        today ++ filename0
      else filename0
    let full_filename := output_directory ++ "/" ++ filename
    let full_filename := get_unique_version fsAcc full_filename
    full_filename :: fsAcc

/-- handle_attachments.  Returns the Python return value len(parts) together
with the final filesystem; each file write conses the resolved path. -/
def handle_attachments (dh : String → List HeaderSegment)
    (dec : List Nat → String → String) (guessAllExtensions : String → List String)
    (message : Message) (fs : List String) (output_directory : String)
    (add_prefix_date : Bool) (today : String)
    (ignore_floating_attachments : Bool) (parts_to_ignore : List Part) :
    Nat × List String :=
  let parts := find_all_attachments message parts_to_ignore
  let fsFinal := parts.foldl
    (handle_attachment_step dh dec guessAllExtensions output_directory
      add_prefix_date today ignore_floating_attachments)
    fs
  (parts.length, fsFinal)

/-- Number of files the extractor wrote, given the filesystems before and
after. -/
def files_written (fsBefore fsAfter : List String) : Nat :=
  fsAfter.length - fsBefore.length

/-! ### The caller retry policy (email2pdf.py lines 128-147)

ha abstracts one invocation of handle_attachments as a function from the
exclude-set to its returned count.  The result records the final
number_of_attachments, the exclude-sets of the invocations actually made (in
order), and whether the second-try warning was logged.  When attachments is
false the mutually-exclusive-flags assertion (line 239) guarantees body is
true, so the guard at line 135 short-circuits before reading the otherwise
unbound count; the model's 0 default is only reached in that dead state. -/

def main_attachment_phase (body attachments : Bool) (ha : List Part → Nat)
    (parts_already_used : List Part) : Nat × List (List Part) × Bool :=
  let n0 := if attachments then ha parts_already_used else 0
  let calls0 : List (List Part) :=
    if attachments then [parts_already_used] else []
  if !body && n0 == 0 then
    let parts_with_a_filename := filter_filenamed_parts parts_already_used
    if parts_with_a_filename.length > 0 then
      let relaxed := parts_already_used.filter
        (fun p => !(parts_with_a_filename.contains p))
      let n1 := ha relaxed
      (n1, calls0 ++ [relaxed], n1 == 0)
    else
      (n0, calls0, true)
  else
    (n0, calls0, false)

/-! ### Body Resolver: plain text (email2pdf.py lines 329-359) -/

/-- Python: charset = get_content_charset(); if not charset: utf-8. -/
def charsetOrUtf8 : Option String → String
  | none => "utf-8"
  | some cs => if cs == "" then "utf-8" else cs

/-- handle_plain_message_body.  dec is strict charset decoding (none models
UnicodeDecodeError), decReplace the same decoding with replacement of
undecodable bytes.  The Bool records whether the replacement warning was
logged.  On the 8bit branch the raw payload string is returned as-is;
wrapping, escaping and the HTML shell happen only on the byte-decoding
branch. -/
def handle_plain_message_body (dec : List Nat → String → Option String)
    (decReplace : List Nat → String → String) (part : Part) : String × Bool :=
  if part.contentTransferEncoding == some "8bit" then
    (part.payloadRaw, false)
  else
    let charset := charsetOrUtf8 part.contentCharset
    let decoded :=
      match dec part.payloadBytes charset with
      | some s => (s, false)
      | none => (decReplace part.payloadBytes charset, true)
    let payload :=
      ⟨joinSepChar '\n' ((splitlines decoded.1.data).map (fill 80))⟩
    let payload := htmlEscape payload
    ("<html><body><pre>\n" ++ payload ++ "\n</pre></body></html>", decoded.2)

/-! ### Body Resolver: HTML with inline cid images (email2pdf.py lines 362-405) -/

theorem length_dropWhile_le_self (p : Char → Bool) :
    ∀ l : List Char, (l.dropWhile p).length ≤ l.length
  | [] => Nat.le_refl _
  | c :: rest => by
    simp only [List.dropWhile]
    split
    · exact Nat.le_succ_of_le (length_dropWhile_le_self p rest)
    · exact Nat.le_refl _

/-- A character matched by the token class of the pattern cid:(token+):
word characters (ASCII reading), underscore, at, dot, dash. -/
def tokenChar (c : Char) : Bool :=
  c.isAlphanum || c == '_' || c == '@' || c == '.' || c == '-'

/-- The substituted data URI: sniffed MIME type (external libmagic, applied to
the transfer-decoded bytes) and the raw base64 text with carriage returns,
newlines and tabs removed. -/
def data_uri (sniff : List Nat → String) (image_part : Part) : String :=
  let image_base64 : String :=
    ⟨image_part.payloadRaw.data.filter
      (fun c => !(c == '\r' || c == '\n' || c == '\t'))⟩
  "data:" ++ sniff image_part.payloadBytes ++ ";base64," ++ image_base64

/-- Image lookup of cid_replace: first by Content-ID, then by the name
parameter of the content type. -/
def cid_lookup (message : Message) (cid : String) : Option Part :=
  match find_part_by_content_id message cid with
  | some image_part => some image_part
  | none => find_part_by_content_type_name message cid

/-- Set-insert preserving first-insertion order. -/
def addPart (p : Part) (acc : List Part) : List Part :=
  if acc.contains p then acc else acc ++ [p]

/-- The re.sub scan of the payload for cid:token references, with the
cid_replace closure inlined: acc is the growing consumed set, warns counts
the could-not-find-image warnings, and none models the AssertionError raised
when a resolved image part is not base64 encoded. -/
def scan_cids (sniff : List Nat → String) (message : Message) :
    List Part → Nat → List Char → Option (List Char × List Part × Nat)
  | acc, warns, [] => some ([], acc, warns)
  | acc, warns, c :: rest =>
    if c == 'c' && List.isPrefixOf ['i', 'd', ':'] rest
        && tokenChar ((rest.drop 3).headD ' ') then
      let tok := (rest.drop 3).takeWhile tokenChar
      let rest1 := (rest.drop 3).dropWhile tokenChar
      match cid_lookup message ⟨tok⟩ with
      | some image_part =>
        if image_part.contentTransferEncoding == some "base64" then
          (scan_cids sniff message (addPart image_part acc) warns rest1).map
            (fun r => ((data_uri sniff image_part).data ++ r.1, r.2))
        else none
      | none =>
        (scan_cids sniff message acc (warns + 1) rest1).map
          (fun r => ("broken".data ++ r.1, r.2))
    else
      (scan_cids sniff message acc warns rest).map
        (fun r => (c :: r.1, r.2))
termination_by _ _ l => l.length
decreasing_by
  all_goals simp_wf
  all_goals first
    | omega
    | (have h1 := length_dropWhile_le_self tokenChar (rest.drop 3)
       have h2 : (rest.drop 3).length ≤ rest.length := by
         have := List.length_drop 3 rest
         omega
       omega)

/-- handle_html_message_body: decode the payload with the declared charset
(default utf-8), retrying once with the chardet-detected charset (external),
then run the cid substitution starting from an empty consumed set.  none
models an uncaught failure (second decode failing, or the base64 assertion
in the scan). -/
def handle_html_message_body (dec : List Nat → String → Option String)
    (detect : List Nat → String) (sniff : List Nat → String)
    (message : Message) (part : Part) : Option (String × List Part × Nat) :=
  let charset := charsetOrUtf8 part.contentCharset
  let payload_unicode :=
    match dec part.payloadBytes charset with
    | some s => some s
    | none => dec part.payloadBytes (detect part.payloadBytes)
  match payload_unicode with
  | none => none
  | some payload =>
    (scan_cids sniff message [] 0 payload.data).map
      (fun r => (⟨r.1⟩, r.2))

/-- handle_message_body (email2pdf.py lines 307-326): prefer the first
text/html part, else the first text/plain part, else fail fatally (none)
unless the body was suppressed; the consumed set starts empty and the plain
and no-body outcomes leave it empty. -/
def handle_message_body (body : Bool) (dec : List Nat → String → Option String)
    (decReplace : List Nat → String → String) (detect : List Nat → String)
    (sniff : List Nat → String) (message : Message) :
    Option (Option String × List Part) :=
  match find_part_by_content_type message "text/html" with
  | some part =>
    (handle_html_message_body dec detect sniff message part).map
      (fun r => (some r.1, r.2.1))
  | none =>
    match find_part_by_content_type message "text/plain" with
    | some part =>
      some (some (handle_plain_message_body dec decReplace part).1, [])
    | none => if body then none else some (none, [])

/-! ### Rendering-engine diagnostics policy (email2pdf.py lines 53-59, 408-438) -/

/-- The fixed benign-diagnostics allow-list, as the literal texts the regex
patterns stand for (the patterns are literal up to regex escaping).  The
platform-conditional wayland entry (lines 418-422) is environment-dependent
and not part of the fixed list. -/
def WKHTMLTOPDF_ERRORS_IGNORE : List String :=
  [ "QFont::setPixelSize: Pixel size <= 0 (0)",
    "Invalid SOS parameters for sequential JPEG",
    "libpng warning: Out of place sRGB chunk",
    "Exit with code 1 due to network error: ContentNotFoundError",
    "Exit with code 1 due to network error: ProtocolUnknownError",
    "Exit with code 1 due to network error: UnknownContentError",
    "libpng warning: iCCP: known incorrect sRGB profile" ]

/-- The re.subn removal loop over the allow-list. -/
def strip_ignored_errors (s : String) : String :=
  WKHTMLTOPDF_ERRORS_IGNORE.foldl (fun acc pat => removeAll pat acc) s

/-- The raise decisions of output_body_pdf, as a function of the process
return code and its raw diagnostic text: some message models raising
FatalException. -/
def output_body_pdf_check (returncode : Nat) (error : String) : Option String :=
  let stripped_error := rstrip (strip_ignored_errors error)
  let original_error := rstrip error
  if returncode > 0 && original_error == "" then
    some ("wkhtmltopdf failed with exit code " ++ natRepr returncode
      ++ ", no error output.")
  else if returncode > 0 && !(stripped_error == "") then
    some ("wkhtmltopdf failed with exit code " ++ natRepr returncode
      ++ ", stripped error: " ++ stripped_error)
  else if !(stripped_error == "") then
    some ("wkhtmltopdf exited with rc = 0 but produced unknown stripped error output "
      ++ stripped_error)
  else none

/-! ### Image URL scrubbing (email2pdf.py lines 51, 451-496) -/

def IMAGE_LOAD_BLACKLIST : List String := ["emltrk.com", "trk.email", "shim.gif"]

/-- can_url_fetch: the url is fetched with spaces percent-encoded; fetch is
the external reachability capability (urlopen succeeding; HTTP, URL and
value errors all map to false). -/
def can_url_fetch (fetch : String → Bool) (src : String) : Bool :=
  fetch ⟨(src.data.map (fun c => if c == ' ' then "%20".data else [c])).flatten⟩

/-- The per-img decision of remove_invalid_urls: the new value of the src
attribute (none means the attribute is deleted) and whether the
could-not-retrieve warning was logged. -/
def remove_invalid_url (fetch : String → Bool) (src : String) :
    Option String × Bool :=
  let lower_src := toLowerStr src
  if lower_src == "broken" then (none, false)
  else if !(lower_src.data.take 4 == "data".data) then
    let found_blacklist := IMAGE_LOAD_BLACKLIST.any
      (fun item => listContainsSub item.data lower_src.data)
    if !found_blacklist then
      if !(can_url_fetch fetch src) then (none, true) else (some src, false)
    else (none, false)
  else (some src, false)

/-- remove_invalid_urls over the document's img elements, each represented by
its optional src attribute (the HTML parse and re-serialisation are the
external BeautifulSoup). -/
def remove_invalid_urls (fetch : String → Bool)
    (imgs : List (Option String)) : List (Option String) :=
  imgs.map (fun src => match src with
    | none => none
    | some s => (remove_invalid_url fetch s).1)

/-! ### Auxiliary definitions for the verification development -/

/-- Value of a little-endian digit list (inverse of natReprAux). -/
def digitsVal : List Char → Nat
  | [] => 0
  | c :: cs => (c.toNat - 48) + 10 * digitsVal cs

/-- The decoding of a single segment of a decoded header: text fragments as
is, byte fragments decoded with their declared charset, ASCII when none is
declared. -/
def decode_segment (dec : List Nat → String → String) (seg : HeaderSegment) : String :=
  match seg.1 with
  | Sum.inl s => s
  | Sum.inr bs => dec bs (charsetOrASCII seg.2)

/-- The inline-image part of the witness message for C4. -/
def cidExamplePart : Part :=
  { pid := 1, contentId := some "<im1>",
    contentTransferEncoding := some "base64",
    payloadRaw := "QUJD\r\n", payloadBytes := [65, 66, 67] }

/-- A match of the pattern cid:(token+) starts at the head of the text:
the four literal characters followed by at least one token character. -/
def cidMatchAt (l : List Char) : Bool :=
  List.isPrefixOf ['c', 'i', 'd', ':'] l && tokenChar ((l.drop 4).headD ' ')

/-- No match of the pattern starts at any of the first k positions. -/
def noCidMatchWithin : Nat → List Char → Bool
  | 0, _ => true
  | _ + 1, [] => true
  | k + 1, c :: rest => !cidMatchAt (c :: rest) && noCidMatchWithin k rest

/-- The first character, if any, is not a token character (so a token ending
just before this text is maximal). -/
def headNotToken : List Char → Bool
  | [] => true
  | c :: _ => !tokenChar c

/-- The text spelled by a list of (token, following gap) match segments. -/
def segsText (segs : List (List Char × List Char)) : List Char :=
  (segs.map (fun seg => 'c' :: 'i' :: 'd' :: ':' :: (seg.1 ++ seg.2))).flatten

/-- A body text presented as a leading gap followed by its match segments. -/
def cid_text (a0 : List Char) (segs : List (List Char × List Char)) : List Char :=
  a0 ++ segsText segs

/-- The segments list enumerates exactly the matches of the text: every
token is non-empty and made of token characters, every token is maximal
(the following text does not start with a token character), and no further
match starts inside any gap. -/
def cid_segs_wf : List (List Char × List Char) → Bool
  | [] => true
  | (tok, gap) :: rest =>
    !tok.isEmpty && tok.all tokenChar
      && headNotToken (gap ++ segsText rest)
      && noCidMatchWithin gap.length (gap ++ segsText rest)
      && cid_segs_wf rest

/-- The claim-side description of the substitution: for each matched token
in order, resolve by Content-ID falling back to the content-type name
parameter; a resolved part must be base64 (else the assertion fails, none)
and contributes its data URI and joins the consumed set; an unresolved
token contributes the literal broken and one warning; the gap after each
match is copied. -/
def cid_expected (sniff : List Nat → String) (message : Message) :
    List Part → Nat → List (List Char × List Char) →
    Option (List Char × List Part × Nat)
  | acc, warns, [] => some ([], acc, warns)
  | acc, warns, (tok, gap) :: rest =>
    match cid_lookup message ⟨tok⟩ with
    | some image_part =>
      if image_part.contentTransferEncoding == some "base64" then
        (cid_expected sniff message (addPart image_part acc) warns rest).map
          (fun r => ((data_uri sniff image_part).data ++ gap ++ r.1, r.2))
      else none
    | none =>
      (cid_expected sniff message acc (warns + 1) rest).map
        (fun r => ("broken".data ++ gap ++ r.1, r.2))

/-- Decompose a text into its leading match-free gap and the list of its
matches with their following gaps (fuel-driven; the text length always
suffices since every step consumes at least one character). -/
def cid_decomposeAux : Nat → List Char → List Char × List (List Char × List Char)
  | 0, l => (l, [])
  | _ + 1, [] => ([], [])
  | fuel + 1, c :: rest =>
    if cidMatchAt (c :: rest) then
      ([], ((rest.drop 3).takeWhile tokenChar,
            (cid_decomposeAux fuel ((rest.drop 3).dropWhile tokenChar)).1)
        :: (cid_decomposeAux fuel ((rest.drop 3).dropWhile tokenChar)).2)
    else
      (c :: (cid_decomposeAux fuel rest).1, (cid_decomposeAux fuel rest).2)

def cid_decompose (l : List Char) : List Char × List (List Char × List Char) :=
  cid_decomposeAux l.length l

/-! ## Theorems -/

/-! ### C6: header decoding concatenates independently decoded segments -/

theorem string_join_cons (x : String) (xs : List String) :
    String.join (x :: xs) = x ++ String.join xs := by
  apply String.ext
  rw [String.join_eq, String.join_eq]
  simp [String.data_append]

theorem get_utf8_header_foldl (dec : List Nat → String → String)
    (segs : List HeaderSegment) : ∀ init : String,
    segs.foldl
      (fun hdr element =>
        match element.1 with
        | Sum.inl s => hdr ++ s
        | Sum.inr bs => hdr ++ dec bs (charsetOrASCII element.2))
      init
    = init ++ String.join (segs.map (decode_segment dec)) := by
  induction segs with
  | nil => intro init; simp [String.join]
  | cons seg rest ih =>
    intro init
    rw [List.foldl_cons, ih, List.map_cons, string_join_cons]
    cases h : seg.1 with
    | inl s => simp [decode_segment, h, String.append_assoc]
    | inr bs => simp [decode_segment, h, String.append_assoc]

/-- Claim C6: get_utf8_header returns exactly the concatenation, in order, of
each segment of the decoded header decoded with its own declared charset
(ASCII when the segment declares no byte encoding), with no separator
inserted between adjacent decoded segments. -/
theorem get_utf8_header_concat (dec : List Nat → String → String)
    (decoded_header : List HeaderSegment) :
    get_utf8_header dec decoded_header
      = String.join (decoded_header.map (decode_segment dec)) := by
  unfold get_utf8_header
  have h := get_utf8_header_foldl dec decoded_header ""
  rw [h]
  apply String.ext
  simp [String.data_append]

/-! ### C2: rendering-engine exit policy -/

/-- Claim C2 counterexample: the engine exits with code 1 and non-empty
diagnostic text consisting entirely of an allow-listed benign pattern; the
code raises nothing, although the claim demands a fatal failure on every
non-zero exit. -/
theorem output_body_pdf_benign_nonzero_exit_ok :
    output_body_pdf_check 1
        "Exit with code 1 due to network error: ContentNotFoundError\n"
      = none
    ∧ rstrip "Exit with code 1 due to network error: ContentNotFoundError\n"
        ≠ "" := by
  constructor
  · decide
  · decide

/-- Claim C2 (amended): a non-zero exit raises the fatal failure unless the
raw diagnostic text is non-empty and strips to empty against the benign
allow-list (an entirely-benign diagnostic is tolerated even with non-zero
exit); an exit code of 0 raises exactly when the stripped diagnostic text is
non-empty. -/
theorem output_body_pdf_error_policy (returncode : Nat) (error : String) :
    (returncode > 0 →
      ((output_body_pdf_check returncode error).isSome ↔
        ¬(rstrip error ≠ "" ∧ rstrip (strip_ignored_errors error) = ""))) ∧
    (returncode = 0 →
      ((output_body_pdf_check returncode error).isSome ↔
        rstrip (strip_ignored_errors error) ≠ "")) := by
  unfold output_body_pdf_check
  by_cases h1 : rstrip error = "" <;>
    by_cases h2 : rstrip (strip_ignored_errors error) = "" <;>
      constructor <;> intro hrc <;>
        simp [h1, h2, hrc, Nat.pos_iff_ne_zero]

/-- Witness for C2: at exit code 2 with diagnostic text boom the check does
raise, and at exit code 0 with empty text it does not. -/
theorem output_body_pdf_error_policy_witness :
    (output_body_pdf_check 2 "boom").isSome
    ∧ ¬(output_body_pdf_check 0 "").isSome := by
  constructor
  · exact ((output_body_pdf_error_policy 2 "boom").1 (by decide)).mpr (by decide)
  · intro h
    exact (by decide : ¬(rstrip (strip_ignored_errors "") ≠ ""))
      (((output_body_pdf_error_policy 0 "").2 rfl).mp h)

/-! ### C10: image URL scrubbing policy -/

/-- Claim C10 counterexample: a src whose lowercased value begins with data
but also contains the blacklist substring shim.gif is KEPT unchanged (the
data test precedes the blacklist test), although the claim demands deletion
for any src containing a blacklist substring.  The constantly-false fetch
shows no fetch influences the outcome. -/
theorem remove_invalid_url_keeps_data_blacklist :
    (remove_invalid_url (fun _ => false) "data:image/gif;base64,shim.gif")
      = (some "data:image/gif;base64,shim.gif", false)
    ∧ listContainsSub "shim.gif".data
        (toLowerStr "data:image/gif;base64,shim.gif").data = true := by
  constructor
  · decide
  · decide

/-- Claim C10 (amended): src equal to broken (case-insensitively) is deleted
without fetching; otherwise a src whose lowercased value begins with data is
kept unchanged without fetching, even when it contains a blacklist
substring; otherwise a src whose lowercased value contains one of the
blacklist substrings is deleted without fetching; every other src is kept
exactly when the URL with spaces percent-encoded is fetchable, and a warning
is logged when it is not.  (The first three outcomes do not mention fetch:
no network fetch is attempted for them.) -/
theorem remove_invalid_url_policy (fetch : String → Bool) (src : String) :
    (∀ imgs : List (Option String),
      remove_invalid_urls fetch imgs
        = imgs.map (fun s => s.bind (fun x => (remove_invalid_url fetch x).1))) ∧
    (toLowerStr src = "broken" → remove_invalid_url fetch src = (none, false)) ∧
    (toLowerStr src ≠ "broken" → (toLowerStr src).data.take 4 = "data".data →
      remove_invalid_url fetch src = (some src, false)) ∧
    (toLowerStr src ≠ "broken" → (toLowerStr src).data.take 4 ≠ "data".data →
      IMAGE_LOAD_BLACKLIST.any
          (fun item => listContainsSub item.data (toLowerStr src).data) = true →
      remove_invalid_url fetch src = (none, false)) ∧
    (toLowerStr src ≠ "broken" → (toLowerStr src).data.take 4 ≠ "data".data →
      IMAGE_LOAD_BLACKLIST.any
          (fun item => listContainsSub item.data (toLowerStr src).data) = false →
      remove_invalid_url fetch src =
        (if can_url_fetch fetch src then (some src, false) else (none, true))) := by
  refine ⟨?_, ?_, ?_, ?_, ?_⟩
  · intro imgs
    unfold remove_invalid_urls
    apply List.map_congr_left
    intro s _
    cases s <;> rfl
  · intro h; unfold remove_invalid_url; simp [h]
  · intro h1 h2; unfold remove_invalid_url; simp [h1, h2]
  · intro h1 h2 h3; unfold remove_invalid_url; simp [h1, h2, h3]
  · intro h1 h2 h3; unfold remove_invalid_url; simp [h1, h2, h3]
    split <;> simp_all

/-- Witness for C10: the broken and ordinary-fetchable cases at concrete
inputs. -/
theorem remove_invalid_url_policy_witness :
    remove_invalid_url (fun _ => false) "BrOkEn" = (none, false)
    ∧ remove_invalid_url (fun _ => true) "http://a/b" = (some "http://a/b", false) := by
  constructor
  · exact (remove_invalid_url_policy (fun _ => false) "BrOkEn").2.1 (by decide)
  · have h := (remove_invalid_url_policy (fun _ => true) "http://a/b").2.2.2.2
      (by decide) (by decide) (by decide)
    rw [h]; decide

/-! ### C8: the two-pass attachment fallback of main -/

/-- Claim C8: with the body suppressed (no-body, so attachments enabled by
the mutually-exclusive flags) and a first extraction pass returning zero:
when some consumed part carries a filename, extraction runs exactly once
more — the invocation list is precisely the first pass followed by one
second pass whose exclude-set is the consumed parts minus the filenamed
ones, and the final count is that second result; when no consumed part
carries a filename, only the first pass runs and the warning is logged. -/
theorem main_two_pass_retry (ha : List Part → Nat)
    (parts_already_used : List Part) (h0 : ha parts_already_used = 0) :
    (filter_filenamed_parts parts_already_used ≠ [] →
      (main_attachment_phase false true ha parts_already_used).2.1
        = [parts_already_used,
           parts_already_used.filter
             (fun p => !((filter_filenamed_parts parts_already_used).contains p))]
      ∧ (main_attachment_phase false true ha parts_already_used).1
        = ha (parts_already_used.filter
            (fun p => !((filter_filenamed_parts parts_already_used).contains p))))
    ∧ (filter_filenamed_parts parts_already_used = [] →
      (main_attachment_phase false true ha parts_already_used).2.1
        = [parts_already_used]
      ∧ (main_attachment_phase false true ha parts_already_used).2.2 = true) := by
  constructor
  · intro hne
    have hlen : 0 < (filter_filenamed_parts parts_already_used).length :=
      List.length_pos.mpr hne
    unfold main_attachment_phase
    simp [h0, hlen]
  · intro he
    unfold main_attachment_phase
    simp [h0, he]

/-- Witness for C8: one consumed part with a filename and one without; the
first pass returns zero on the full exclude-set, the second on the relaxed
one returns three. -/
theorem main_two_pass_retry_witness :
    (filter_filenamed_parts
        [{ pid := 0, filename := some "a.txt" }, { pid := 1 }] ≠ [] →
      (main_attachment_phase false true
          (fun l => if l.length == 2 then 0 else 3)
          [{ pid := 0, filename := some "a.txt" }, { pid := 1 }]).2.1
        = [[{ pid := 0, filename := some "a.txt" }, { pid := 1 }],
           [{ pid := 0, filename := some "a.txt" }, { pid := 1 }].filter
             (fun p => !((filter_filenamed_parts
                [{ pid := 0, filename := some "a.txt" }, { pid := 1 }]).contains p))]
      ∧ (main_attachment_phase false true
          (fun l => if l.length == 2 then 0 else 3)
          [{ pid := 0, filename := some "a.txt" }, { pid := 1 }]).1
        = (fun l : List Part => if l.length == 2 then 0 else 3)
            ([{ pid := 0, filename := some "a.txt" }, { pid := 1 }].filter
              (fun p => !((filter_filenamed_parts
                [{ pid := 0, filename := some "a.txt" }, { pid := 1 }]).contains p))))
    ∧ (filter_filenamed_parts
        [{ pid := 0, filename := some "a.txt" }, { pid := 1 }] = [] →
      (main_attachment_phase false true
          (fun l => if l.length == 2 then 0 else 3)
          [{ pid := 0, filename := some "a.txt" }, { pid := 1 }]).2.1
        = [[{ pid := 0, filename := some "a.txt" }, { pid := 1 }]]
      ∧ (main_attachment_phase false true
          (fun l => if l.length == 2 then 0 else 3)
          [{ pid := 0, filename := some "a.txt" }, { pid := 1 }]).2.2 = true) :=
  main_two_pass_retry (fun l => if l.length == 2 then 0 else 3)
    [{ pid := 0, filename := some "a.txt" }, { pid := 1 }] (by decide)

/-! ### C1: the count returned by handle_attachments -/

theorem handle_attachment_step_length (dh : String → List HeaderSegment)
    (dec : List Nat → String → String) (guessAllExtensions : String → List String)
    (output_directory : String) (add_prefix_date : Bool) (today : String)
    (ignore_floating_attachments : Bool) (fsAcc : List String) (part : Part) :
    (handle_attachment_step dh dec guessAllExtensions output_directory
        add_prefix_date today ignore_floating_attachments fsAcc part).length
      = if (attachment_candidate_filename dh dec guessAllExtensions
            ignore_floating_attachments part).isSome
        then fsAcc.length + 1 else fsAcc.length := by
  unfold handle_attachment_step
  cases h : attachment_candidate_filename dh dec guessAllExtensions
      ignore_floating_attachments part <;> simp [h]

theorem handle_attachments_fold_length (dh : String → List HeaderSegment)
    (dec : List Nat → String → String) (guessAllExtensions : String → List String)
    (output_directory : String) (add_prefix_date : Bool) (today : String)
    (ignore_floating_attachments : Bool) :
    ∀ (parts : List Part) (fs : List String),
      (parts.foldl
        (handle_attachment_step dh dec guessAllExtensions output_directory
          add_prefix_date today ignore_floating_attachments) fs).length
      = fs.length
        + (parts.filter
            (fun p => (attachment_candidate_filename dh dec guessAllExtensions
              ignore_floating_attachments p).isSome)).length := by
  intro parts
  induction parts with
  | nil => intro fs; simp
  | cons p rest ih =>
    intro fs
    rw [List.foldl_cons, ih]
    have hs := handle_attachment_step_length dh dec guessAllExtensions
      output_directory add_prefix_date today ignore_floating_attachments fs p
    by_cases h : (attachment_candidate_filename dh dec guessAllExtensions
        ignore_floating_attachments p).isSome
    · simp only [h, if_true] at hs
      simp [List.filter_cons, h, hs]
      omega
    · simp only [h, if_false] at hs
      simp [List.filter_cons, h, hs]

/-- Claim C1 counterexample: one floating part (no filename) with the
ignore-floating option set; nothing is written, yet handle_attachments
returns 1 — the skipped part still counts. -/
theorem handle_attachments_count_includes_skipped :
    (handle_attachments (fun _ => []) (fun _ _ => "") (fun _ => [])
        [{ pid := 0, contentType := "image/gif" }] [] "out" false "" true []).1
      = 1
    ∧ files_written []
        (handle_attachments (fun _ => []) (fun _ _ => "") (fun _ => [])
          [{ pid := 0, contentType := "image/gif" }] [] "out" false "" true []).2
      = 0 := by
  constructor
  · decide
  · decide

/-- Claim C1 (amended): handle_attachments returns the number of candidate
parts enumerated by find_all_attachments; every candidate except those
skipped via the ignore-floating option (candidates with no usable filename)
results in exactly one file written, so the returned count equals the number
of files written plus the number of skipped candidates, and the count equals
the number of files written whenever the ignore-floating option is unset. -/
theorem handle_attachments_count_characterization
    (dh : String → List HeaderSegment) (dec : List Nat → String → String)
    (guessAllExtensions : String → List String) (message : Message)
    (fs : List String) (output_directory : String) (add_prefix_date : Bool)
    (today : String) (ignore_floating_attachments : Bool)
    (parts_to_ignore : List Part) :
    (handle_attachments dh dec guessAllExtensions message fs output_directory
        add_prefix_date today ignore_floating_attachments parts_to_ignore).1
      = (find_all_attachments message parts_to_ignore).length
    ∧ files_written fs
        (handle_attachments dh dec guessAllExtensions message fs output_directory
          add_prefix_date today ignore_floating_attachments parts_to_ignore).2
      = ((find_all_attachments message parts_to_ignore).filter
          (fun p => (attachment_candidate_filename dh dec guessAllExtensions
            ignore_floating_attachments p).isSome)).length
    ∧ (ignore_floating_attachments = false →
        (handle_attachments dh dec guessAllExtensions message fs output_directory
            add_prefix_date today ignore_floating_attachments parts_to_ignore).1
          = files_written fs
              (handle_attachments dh dec guessAllExtensions message fs
                output_directory add_prefix_date today
                ignore_floating_attachments parts_to_ignore).2) := by
  have hfold := handle_attachments_fold_length dh dec guessAllExtensions
    output_directory add_prefix_date today ignore_floating_attachments
    (find_all_attachments message parts_to_ignore) fs
  refine ⟨rfl, ?_, ?_⟩
  · unfold handle_attachments files_written
    simp only []
    rw [hfold]
    omega
  · intro hif
    subst hif
    unfold handle_attachments files_written
    simp only []
    rw [hfold]
    have hall : (find_all_attachments message parts_to_ignore).filter
        (fun p => (attachment_candidate_filename dh dec guessAllExtensions
          false p).isSome)
        = find_all_attachments message parts_to_ignore := by
      apply List.filter_eq_self.mpr
      intro p _
      unfold attachment_candidate_filename
      by_cases h : ((extract_part_filename dh dec p).getD "" == "") = true
      · simp only [h, if_true, Bool.false_eq_true, if_false]
        cases get_type_extension guessAllExtensions p.contentType with
        | none => simp
        | some v => by_cases hv : v = "" <;> simp [hv]
      · simp only [h]
        simp only [Bool.not_eq_true] at h
        cases hf : extract_part_filename dh dec p with
        | none => rw [hf] at h; simp at h
        | some v =>
          simp only [hf, Option.getD_some] at h ⊢
          simp [h]
    rw [hall]
    omega

/-- Witness for C1: with ignore-floating unset the returned count equals the
files written for a concrete one-part message. -/
theorem handle_attachments_count_characterization_witness :
    (handle_attachments (fun _ => []) (fun _ _ => "") (fun _ => [])
        [{ pid := 0, contentType := "image/gif" }] [] "out" false "" false []).1
      = files_written []
          (handle_attachments (fun _ => []) (fun _ _ => "") (fun _ => [])
            [{ pid := 0, contentType := "image/gif" }] [] "out" false "" false []).2 :=
  (handle_attachments_count_characterization (fun _ => []) (fun _ _ => "")
    (fun _ => []) [{ pid := 0, contentType := "image/gif" }] [] "out" false ""
    false []).2.2 rfl

/-! ### C3: the plain-text body pipeline -/

theorem wrapAux_width (width : Nat) :
    ∀ (ws : List (List Char)) (cur : List Char), cur.length ≤ width →
      (∀ w ∈ ws, w.length ≤ width) →
      ∀ out ∈ wrapAux width cur ws, out.length ≤ width := by
  intro ws
  induction ws with
  | nil =>
    intro cur hc _ out hout
    simp only [wrapAux, List.mem_singleton] at hout
    exact hout ▸ hc
  | cons w rest ih =>
    intro cur hc hw out hout
    simp only [wrapAux] at hout
    by_cases hfit : cur.length + 1 + w.length ≤ width
    · rw [if_pos hfit] at hout
      refine ih (cur ++ ' ' :: w) ?_ ?_ out hout
      · simp
        omega
      · intro v hv
        exact hw v (List.mem_cons_of_mem w hv)
    · rw [if_neg hfit] at hout
      rcases List.mem_cons.mp hout with h | h
      · exact h ▸ hc
      · exact ih w (hw w (List.mem_cons_self w rest)) (fun v hv => hw v (List.mem_cons_of_mem w hv)) out h

theorem wrapGreedy_width (width : Nat) (ws : List (List Char))
    (hw : ∀ w ∈ ws, w.length ≤ width) :
    ∀ out ∈ wrapGreedy width ws, out.length ≤ width := by
  cases ws with
  | nil => intro out hout; simp [wrapGreedy] at hout
  | cons w rest =>
    exact wrapAux_width width rest w (hw w (List.mem_cons_self w rest))
      (fun v hv => hw v (List.mem_cons_of_mem w hv))

/-- Claim C3 counterexample: a part whose transfer encoding is the 8-bit
marker is returned as the raw payload string with no wrapping, no HTML
escaping and no enclosing HTML document, although the claim demands all
three for every plain body part. -/
theorem handle_plain_message_body_8bit_raw :
    (handle_plain_message_body (fun _ _ => some "") (fun _ _ => "")
        { pid := 0, contentTransferEncoding := some "8bit",
          payloadRaw := "a<b" }).1
      = "a<b"
    ∧ ((handle_plain_message_body (fun _ _ => some "") (fun _ _ => "")
        { pid := 0, contentTransferEncoding := some "8bit",
          payloadRaw := "a<b" }).1.data.take 6
      ≠ "<html>".data) := by
  constructor
  · decide
  · decide

/-- Claim C3 (amended): only on the non-8-bit branch is the body decoded with
the declared charset (default utf-8, lossy replacement plus a warning when
strict decoding fails), wrapped per line at the fixed width of 80 columns on
word boundaries, HTML-escaped and enclosed in the minimal HTML document with
the monospace pre block; when the transfer encoding is the 8-bit marker the
payload string is returned as-is, with none of those transformations.  The
final conjunct is the 80-column bound of the word wrapper. -/
theorem handle_plain_message_body_characterization
    (dec : List Nat → String → Option String)
    (decReplace : List Nat → String → String) (part : Part) :
    (part.contentTransferEncoding = some "8bit" →
      handle_plain_message_body dec decReplace part = (part.payloadRaw, false)) ∧
    (part.contentTransferEncoding ≠ some "8bit" →
      (∀ txt, dec part.payloadBytes (charsetOrUtf8 part.contentCharset) = some txt →
        handle_plain_message_body dec decReplace part
          = ("<html><body><pre>\n"
              ++ htmlEscape ⟨joinSepChar '\n' ((splitlines txt.data).map (fill 80))⟩
              ++ "\n</pre></body></html>", false)) ∧
      (dec part.payloadBytes (charsetOrUtf8 part.contentCharset) = none →
        handle_plain_message_body dec decReplace part
          = ("<html><body><pre>\n"
              ++ htmlEscape ⟨joinSepChar '\n'
                  ((splitlines (decReplace part.payloadBytes
                    (charsetOrUtf8 part.contentCharset)).data).map (fill 80))⟩
              ++ "\n</pre></body></html>", true))) ∧
    (∀ ws : List (List Char), (∀ w ∈ ws, w.length ≤ 80) →
      ∀ out ∈ wrapGreedy 80 ws, out.length ≤ 80) := by
  refine ⟨?_, ?_, wrapGreedy_width 80⟩
  · intro h8
    unfold handle_plain_message_body
    simp [h8]
  · intro h8
    constructor
    · intro txt hdec
      unfold handle_plain_message_body
      simp [h8, hdec]
    · intro hdec
      unfold handle_plain_message_body
      simp [h8, hdec]

/-- Witness for C3: the non-8-bit strict-decode branch at a concrete part. -/
theorem handle_plain_message_body_characterization_witness :
    handle_plain_message_body (fun _ _ => some "hi") (fun _ _ => "") { pid := 0 }
      = ("<html><body><pre>\n"
          ++ htmlEscape ⟨joinSepChar '\n' ((splitlines ("hi" : String).data).map (fill 80))⟩
          ++ "\n</pre></body></html>", false) :=
  ((handle_plain_message_body_characterization (fun _ _ => some "hi")
      (fun _ _ => "") { pid := 0 }).2.1 (by decide)).1 "hi" rfl

/-! ### C5: the filename used for extraction -/

/-- Claim C5 counterexample: a declared filename of two encoded-word segments
(h then i).  The Header Decoder concatenates both segments (hi), but
extract_part_filename decodes and returns only the first (h) — the filename
used is not the Header Decoder's decoding. -/
theorem extract_filename_drops_later_segments :
    extract_part_filename
        (fun _ => [(Sum.inr [104], some "utf-8"), (Sum.inr [105], some "utf-8")])
        (fun bs _ => if bs == [104] then "h" else "i")
        { pid := 0, filename := some "=?utf-8?B?aA==?= =?utf-8?B?aQ==?=" }
      = some "h"
    ∧ get_utf8_header (fun bs _ => if bs == [104] then "h" else "i")
        ((fun _ => [(Sum.inr [104], some "utf-8"), (Sum.inr [105], some "utf-8")])
          ("=?utf-8?B?aA==?= =?utf-8?B?aQ==?=" : String))
      = "hi"
    ∧ extract_part_filename
        (fun _ => [(Sum.inr [104], some "utf-8"), (Sum.inr [105], some "utf-8")])
        (fun bs _ => if bs == [104] then "h" else "i")
        { pid := 0, filename := some "=?utf-8?B?aA==?= =?utf-8?B?aQ==?=" }
      ≠ some (get_utf8_header (fun bs _ => if bs == [104] then "h" else "i")
          ((fun _ => [(Sum.inr [104], some "utf-8"), (Sum.inr [105], some "utf-8")])
            ("=?utf-8?B?aA==?= =?utf-8?B?aQ==?=" : String))) := by
  refine ⟨?_, ?_, ?_⟩
  · decide
  · decide
  · decide

/-- Claim C5 (amended): the filename used for extraction decodes only the
FIRST segment of the header decoding of the declared filename, with that
segment's declared charset; later segments are discarded, so it agrees with
the Header Decoder exactly on single-segment filenames; a first segment
without a charset leaves the raw declared filename undecoded.  For
candidates with no declared filename the Content-ID with brackets stripped
is used if present and non-empty, else the placeholder floating_attachment,
in both cases with an inferred non-empty extension appended when the MIME
type maps to one. -/
theorem extract_filename_first_segment
    (dh : String → List HeaderSegment) (dec : List Nat → String → String)
    (guessAllExtensions : String → List String) (part : Part) :
    (∀ fn bs cs, part.filename = some fn → dh fn = [(Sum.inr bs, some cs)] →
      cs ≠ "" →
      extract_part_filename dh dec part = some (get_utf8_header dec (dh fn))) ∧
    (∀ fn bs cs restSegs, part.filename = some fn →
      dh fn = (Sum.inr bs, some cs) :: restSegs →
      extract_part_filename dh dec part = some (dec bs cs)) ∧
    (∀ fn pl restSegs, part.filename = some fn → dh fn = (pl, none) :: restSegs →
      extract_part_filename dh dec part = some fn) ∧
    (part.filename = none →
      attachment_candidate_filename dh dec guessAllExtensions false part
        = some (
            let base :=
              match get_content_id part with
              | some cid =>
                if cid = "" then AUTOGENERATED_ATTACHMENT_PLACEHOLDER else cid
              | none => AUTOGENERATED_ATTACHMENT_PLACEHOLDER
            match get_type_extension guessAllExtensions part.contentType with
            | some ext => if ext = "" then base else base ++ ext
            | none => base)) := by
  refine ⟨?_, ?_, ?_, ?_⟩
  · intro fn bs cs hfn hdh hcs
    simp only [extract_part_filename, hfn, hdh, get_utf8_header,
      List.foldl_cons, List.foldl_nil, charsetOrASCII]
    simp [hcs]
  · intro fn bs cs restSegs hfn hdh
    simp only [extract_part_filename, hfn, hdh]
  · intro fn pl restSegs hfn hdh
    cases pl <;> simp only [extract_part_filename, hfn, hdh]
  · intro hfn
    unfold attachment_candidate_filename extract_part_filename
    rw [hfn]
    simp only [Option.getD_none]
    cases hcid : get_content_id part with
    | none =>
      simp only [hcid, Option.getD_none]
      cases hext : get_type_extension guessAllExtensions part.contentType with
      | none => simp
      | some ext => by_cases he : ext = "" <;> simp [he]
    | some cid =>
      simp only [hcid, Option.getD_some]
      by_cases hc : cid = "" <;>
        cases hext : get_type_extension guessAllExtensions part.contentType with
        | none => simp [hc]
        | some ext => by_cases he : ext = "" <;> simp [hc, he]

/-- Witness for C5: the first-segment rule at a concrete two-segment
decoding. -/
theorem extract_filename_first_segment_witness :
    extract_part_filename
        (fun _ => [(Sum.inr [104], some "utf-8"), (Sum.inr [105], some "utf-8")])
        (fun bs _ => if bs == [104] then "h" else "i")
        { pid := 0, filename := some "n" }
      = some "h" := by
  have h := (extract_filename_first_segment
      (fun _ => [(Sum.inr [104], some "utf-8"), (Sum.inr [105], some "utf-8")])
      (fun bs _ => if bs == [104] then "h" else "i") (fun _ => [])
      { pid := 0, filename := some "n" }).2.1 "n" [104] "utf-8"
      [(Sum.inr [105], some "utf-8")] rfl rfl
  exact h.trans (by decide)

/-! ### C9: the consumed set only grows -/

theorem addPart_mono (q p : Part) (acc : List Part) (hp : p ∈ acc) :
    p ∈ addPart q acc := by
  unfold addPart
  split
  · exact hp
  · exact List.mem_append_left _ hp

theorem scan_cids_acc_mono (sniff : List Nat → String) (message : Message) :
    ∀ (l : List Char) (acc : List Part) (warns : Nat) (out : List Char)
      (accF : List Part) (warnsF : Nat),
      scan_cids sniff message acc warns l = some (out, accF, warnsF) →
      ∀ p ∈ acc, p ∈ accF := by
  have H : ∀ (n : Nat) (l : List Char), l.length = n →
      ∀ (acc : List Part) (warns : Nat) (out : List Char) (accF : List Part)
        (warnsF : Nat),
        scan_cids sniff message acc warns l = some (out, accF, warnsF) →
        ∀ p ∈ acc, p ∈ accF := by
    intro n
    induction n using Nat.strong_induction_on with
    | _ n ih =>
      intro l hlen acc warns out accF warnsF hscan p hp
      match l with
      | [] =>
        simp only [scan_cids, Option.some_inj, Prod.mk.injEq] at hscan
        rw [← hscan.2.1]
        exact hp
      | c :: rest =>
        rw [scan_cids] at hscan
        by_cases hcond : (c == 'c' && List.isPrefixOf ['i', 'd', ':'] rest
            && tokenChar ((rest.drop 3).headD ' ')) = true
        · rw [if_pos hcond] at hscan
          have hlen1 :
              ((rest.drop 3).dropWhile tokenChar).length < n := by
            have h1 := length_dropWhile_le_self tokenChar (rest.drop 3)
            have h2 := List.length_drop 3 rest
            simp at hlen
            omega
          cases hlook : cid_lookup message ⟨(rest.drop 3).takeWhile tokenChar⟩ with
          | some image_part =>
            simp only [hlook] at hscan
            by_cases hb64 :
                (image_part.contentTransferEncoding == some "base64") = true
            · rw [if_pos hb64] at hscan
              obtain ⟨⟨r1, r2, r3⟩, hr, heq⟩ := Option.map_eq_some'.mp hscan
              simp only [Prod.mk.injEq] at heq
              rw [← heq.2.1]
              exact ih _ hlen1 _ rfl _ _ r1 r2 r3 hr p
                (addPart_mono image_part p acc hp)
            · rw [if_neg hb64] at hscan
              exact absurd hscan (by simp)
          | none =>
            simp only [hlook] at hscan
            obtain ⟨⟨r1, r2, r3⟩, hr, heq⟩ := Option.map_eq_some'.mp hscan
            simp only [Prod.mk.injEq] at heq
            rw [← heq.2.1]
            exact ih _ hlen1 _ rfl _ _ r1 r2 r3 hr p hp
        · rw [if_neg hcond] at hscan
          obtain ⟨⟨r1, r2, r3⟩, hr, heq⟩ := Option.map_eq_some'.mp hscan
          simp only [Prod.mk.injEq] at heq
          rw [← heq.2.1]
          have hrest : rest.length < n := by
            simp at hlen
            omega
          exact ih _ hrest _ rfl _ _ r1 r2 r3 hr p hp
  intro l
  exact H l.length l rfl

/-- Claim C9: within a run the consumed-parts set only grows — the cid scan
of HTML body resolution never removes a part from the consumed set it
threads (every part of the incoming set is in the returned set); body
resolution yields an empty consumed set on the plain-text and no-body
outcomes (it starts empty); and the relaxed exclude-set built for the second
attachment pass is a fresh filtered value all of whose members come from the
consumed set, which is itself left unchanged. -/
theorem consumed_parts_monotone :
    (∀ (sniff : List Nat → String) (message : Message) (l : List Char)
      (acc : List Part) (warns : Nat) (out : List Char) (accF : List Part)
      (warnsF : Nat),
      scan_cids sniff message acc warns l = some (out, accF, warnsF) →
      ∀ p ∈ acc, p ∈ accF) ∧
    (∀ (body : Bool) (dec : List Nat → String → Option String)
      (decReplace : List Nat → String → String) (detect : List Nat → String)
      (sniff : List Nat → String) (message : Message)
      (payload : Option String) (consumed : List Part),
      handle_message_body body dec decReplace detect sniff message
        = some (payload, consumed) →
      find_part_by_content_type message "text/html" = none →
      consumed = []) ∧
    (∀ (parts_already_used : List Part) (p : Part),
      p ∈ parts_already_used.filter
        (fun q => !((filter_filenamed_parts parts_already_used).contains q)) →
      p ∈ parts_already_used) := by
  refine ⟨?_, ?_, ?_⟩
  · intro sniff message l acc warns out accF warnsF h
    exact scan_cids_acc_mono sniff message l acc warns out accF warnsF h
  · intro body dec decReplace detect sniff message payload consumed h hhtml
    unfold handle_message_body at h
    rw [hhtml] at h
    cases hplain : find_part_by_content_type message "text/plain" with
    | some part =>
      rw [hplain] at h
      simp only [Option.some_inj, Prod.mk.injEq] at h
      exact h.2.symm
    | none =>
      rw [hplain] at h
      cases body with
      | true => simp at h
      | false =>
        simp only [Bool.false_eq_true, if_false, Option.some_inj,
          Prod.mk.injEq] at h
        exact h.2.symm
  · intro parts_already_used p hp
    exact (List.mem_filter.mp hp).1

/-- Witness for C9: a concrete empty-tail scan keeps the consumed part it
was handed, and a concrete plain-only message yields the empty consumed
set. -/
theorem consumed_parts_monotone_witness :
    { pid := 7 : Part } ∈ ([{ pid := 7 : Part }] : List Part)
    ∧ ([] : List Part) = [] := by
  constructor
  · exact consumed_parts_monotone.1 (fun _ => "") [] []
      [{ pid := 7 }] 0 [] [{ pid := 7 }] 0 (by simp [scan_cids])
      { pid := 7 } (by decide)
  · exact consumed_parts_monotone.2.1 true (fun _ _ => some "") (fun _ _ => "")
      (fun _ => "") (fun _ => "")
      [{ pid := 0, contentType := "text/plain" }]
      (some "<html><body><pre>\n\n</pre></body></html>") [] (by decide) (by decide)

/-! ### C4: inline cid substitution in the HTML body -/

theorem takeWhile_append_all (p : Char → Bool) :
    ∀ (a b : List Char), (∀ c ∈ a, p c = true) →
      (a ++ b).takeWhile p = a ++ b.takeWhile p := by
  intro a
  induction a with
  | nil => intro b _; simp
  | cons x xs ih =>
    intro b h
    rw [List.cons_append, List.takeWhile_cons, h x (List.mem_cons_self x xs),
      ih b (fun c hc => h c (List.mem_cons_of_mem x hc))]
    rfl

theorem dropWhile_append_all (p : Char → Bool) :
    ∀ (a b : List Char), (∀ c ∈ a, p c = true) →
      (a ++ b).dropWhile p = b.dropWhile p := by
  intro a
  induction a with
  | nil => intro b _; simp
  | cons x xs ih =>
    intro b h
    rw [List.cons_append, List.dropWhile_cons, h x (List.mem_cons_self x xs)]
    exact ih b (fun c hc => h c (List.mem_cons_of_mem x hc))

theorem takeWhile_head_false (p : Char → Bool) (b : List Char)
    (hb : ∀ c, b.head? = some c → p c = false) : b.takeWhile p = [] := by
  cases b with
  | nil => rfl
  | cons x xs => rw [List.takeWhile_cons, hb x rfl]; simp

theorem dropWhile_head_false (p : Char → Bool) (b : List Char)
    (hb : ∀ c, b.head? = some c → p c = false) : b.dropWhile p = b := by
  cases b with
  | nil => rfl
  | cons x xs => rw [List.dropWhile_cons, hb x rfl]; simp

/-- headNotToken gives the per-head form needed for the take and drop
lemmas. -/
theorem headNotToken_to_forall (b : List Char) (hb : headNotToken b = true) :
    ∀ c, b.head? = some c → tokenChar c = false := by
  intro c hc
  cases b with
  | nil => simp at hc
  | cons y ys =>
    simp only [List.head?_cons, Option.some_inj] at hc
    subst hc
    simpa [headNotToken] using hb

/-- Whatever a run of token characters is dropped from, the remainder does
not start with a token character. -/
theorem headNotToken_dropWhile :
    ∀ l : List Char, headNotToken (l.dropWhile tokenChar) = true := by
  intro l
  induction l with
  | nil => rfl
  | cons c rest ih =>
    rw [List.dropWhile_cons]
    by_cases hc : tokenChar c = true
    · simp [hc, ih]
    · have hc2 : tokenChar c = false := by simpa using hc
      simp [hc2, headNotToken]

/-- The head test of the scan is exactly a match of the pattern starting at
the current position. -/
theorem scan_cond_eq (x : Char) (rest : List Char) :
    (x == 'c' && List.isPrefixOf ['i', 'd', ':'] rest
      && tokenChar ((rest.drop 3).headD ' '))
    = cidMatchAt (x :: rest) := by
  unfold cidMatchAt
  by_cases hx : x = 'c'
  · subst hx
    simp [List.isPrefixOf]
  · have h1 : (x == 'c') = false := by simp [hx]
    have h2 : ('c' == x) = false := by
      have hx2 : ¬('c' = x) := fun h => hx h.symm
      simp [hx2]
    simp [List.isPrefixOf, h1, h2]

/-- On a text in which no match starts anywhere, the scan is the identity
copy and touches neither the consumed set nor the warning count. -/
theorem scan_no_match (sniff : List Nat → String) (message : Message) :
    ∀ (a : List Char), noCidMatchWithin a.length a = true →
      ∀ (acc : List Part) (warns : Nat),
        scan_cids sniff message acc warns a = some (a, acc, warns) := by
  intro a
  induction a with
  | nil => intro _ acc warns; rw [scan_cids]
  | cons x rest ih =>
    intro ha acc warns
    simp only [List.length_cons] at ha
    rw [noCidMatchWithin, Bool.and_eq_true] at ha
    obtain ⟨h1, h2⟩ := ha
    have hm : cidMatchAt (x :: rest) = false := by simpa using h1
    rw [scan_cids, scan_cond_eq x rest, hm]
    simp only [Bool.false_eq_true, if_false]
    rw [ih h2 acc warns]
    rfl

/-- The action of the cid scan on a text of the shape
prefix ++ cid: ++ token ++ rest, where no match of the pattern starts at
any position inside the prefix, the token is a non-empty maximal run of
token characters, and the rest does not extend the token: the scan copies
the prefix, substitutes for the matched reference exactly as cid_replace
does, and continues on the rest with the accordingly updated consumed set
and warning count. -/
theorem scan_cids_match (sniff : List Nat → String) (message : Message)
    (tok b : List Char) (ht0 : tok ≠ []) (ht : ∀ c ∈ tok, tokenChar c = true)
    (hb : headNotToken b = true) :
    ∀ (a : List Char),
      noCidMatchWithin a.length
        (a ++ 'c' :: 'i' :: 'd' :: ':' :: (tok ++ b)) = true →
      ∀ (acc : List Part) (warns : Nat),
      scan_cids sniff message acc warns
          (a ++ 'c' :: 'i' :: 'd' :: ':' :: (tok ++ b)) =
        match cid_lookup message ⟨tok⟩ with
        | some image_part =>
          if image_part.contentTransferEncoding == some "base64" then
            (scan_cids sniff message (addPart image_part acc) warns b).map
              (fun r => (a ++ (data_uri sniff image_part).data ++ r.1, r.2))
          else none
        | none =>
          (scan_cids sniff message acc (warns + 1) b).map
            (fun r => (a ++ "broken".data ++ r.1, r.2)) := by
  have hbf := headNotToken_to_forall b hb
  have htake : (tok ++ b).takeWhile tokenChar = tok := by
    rw [takeWhile_append_all tokenChar tok b ht,
      takeWhile_head_false tokenChar b hbf, List.append_nil]
  have hdrop : (tok ++ b).dropWhile tokenChar = b := by
    rw [dropWhile_append_all tokenChar tok b ht,
      dropWhile_head_false tokenChar b hbf]
  intro a
  induction a with
  | nil =>
    intro _ acc warns
    rw [List.nil_append, scan_cids]
    have hhead : tokenChar (((('i' :: 'd' :: ':' :: (tok ++ b)).drop 3).headD ' '))
        = true := by
      cases tok with
      | nil => exact absurd rfl ht0
      | cons t ts =>
        simp only [List.drop_succ_cons, List.drop_zero, List.cons_append,
          List.headD_cons]
        exact ht t (List.mem_cons_self t ts)
    have hcond : ('c' == 'c'
        && List.isPrefixOf ['i', 'd', ':'] ('i' :: 'd' :: ':' :: (tok ++ b))
        && tokenChar ((('i' :: 'd' :: ':' :: (tok ++ b)).drop 3).headD ' '))
        = true := by
      rw [hhead]
      simp [List.isPrefixOf]
    rw [if_pos hcond]
    simp only [List.drop_succ_cons, List.drop_zero, htake, hdrop]
    cases cid_lookup message ⟨tok⟩ with
    | some image_part =>
      by_cases hb64 : (image_part.contentTransferEncoding == some "base64") = true <;>
        cases scan_cids sniff message (addPart image_part acc) warns b <;>
          simp [hb64, Function.comp_def]
    | none =>
      cases scan_cids sniff message acc (warns + 1) b <;> simp [Function.comp_def]
  | cons x xs ih =>
    intro hx acc warns
    simp only [List.length_cons, List.cons_append] at hx
    rw [noCidMatchWithin, Bool.and_eq_true] at hx
    obtain ⟨hx1, hx2⟩ := hx
    have hxm : cidMatchAt
        (x :: (xs ++ 'c' :: 'i' :: 'd' :: ':' :: (tok ++ b))) = false := by
      simpa using hx1
    rw [List.cons_append, scan_cids,
      scan_cond_eq x (xs ++ 'c' :: 'i' :: 'd' :: ':' :: (tok ++ b)), hxm]
    simp only [Bool.false_eq_true, if_false]
    rw [ih hx2 acc warns]
    cases cid_lookup message ⟨tok⟩ with
    | some image_part =>
      by_cases hb64 : (image_part.contentTransferEncoding == some "base64") = true <;>
        cases scan_cids sniff message (addPart image_part acc) warns b <;>
          simp [hb64, Function.comp_def]
    | none =>
      cases scan_cids sniff message acc (warns + 1) b <;> simp [Function.comp_def]

/-- The scan over a whole decomposed text: the leading gap is copied and
every listed match is substituted in order per cid_expected. -/
theorem scan_cids_full (sniff : List Nat → String) (message : Message) :
    ∀ (segs : List (List Char × List Char)) (a0 : List Char),
      noCidMatchWithin a0.length (cid_text a0 segs) = true →
      cid_segs_wf segs = true →
      ∀ (acc : List Part) (warns : Nat),
        scan_cids sniff message acc warns (cid_text a0 segs)
          = (cid_expected sniff message acc warns segs).map
              (fun r => (a0 ++ r.1, r.2)) := by
  intro segs
  induction segs with
  | nil =>
    intro a0 ha _ acc warns
    have h0 : cid_text a0 [] = a0 := by simp [cid_text, segsText]
    rw [h0] at ha ⊢
    rw [scan_no_match sniff message a0 ha acc warns]
    simp [cid_expected]
  | cons seg rest ih =>
    obtain ⟨tok, gap⟩ := seg
    intro a0 ha hwf acc warns
    rw [cid_segs_wf] at hwf
    simp only [Bool.and_eq_true] at hwf
    obtain ⟨⟨⟨⟨hw1, hw2⟩, hw3⟩, hw4⟩, hw5⟩ := hwf
    have ht0 : tok ≠ [] := by
      intro h
      rw [h] at hw1
      simp at hw1
    have ht : ∀ c ∈ tok, tokenChar c = true := by
      intro c hc
      exact List.all_eq_true.mp hw2 c hc
    have htext : cid_text a0 ((tok, gap) :: rest)
        = a0 ++ 'c' :: 'i' :: 'd' :: ':' :: (tok ++ (gap ++ segsText rest)) := by
      simp [cid_text, segsText, List.append_assoc]
    rw [htext] at ha ⊢
    rw [scan_cids_match sniff message tok (gap ++ segsText rest) ht0 ht hw3
      a0 ha acc warns]
    have hbody : ∀ (acc2 : List Part) (warns2 : Nat),
        scan_cids sniff message acc2 warns2 (gap ++ segsText rest)
          = (cid_expected sniff message acc2 warns2 rest).map
              (fun r => (gap ++ r.1, r.2)) :=
      fun acc2 warns2 => ih gap hw4 hw5 acc2 warns2
    rw [cid_expected]
    cases cid_lookup message ⟨tok⟩ with
    | some image_part =>
      by_cases hb64 : (image_part.contentTransferEncoding == some "base64") = true <;>
        cases hce : cid_expected sniff message (addPart image_part acc) warns rest <;>
          simp [hb64, hbody, hce, Function.comp_def]
    | none =>
      cases hce : cid_expected sniff message acc (warns + 1) rest <;>
        simp [hbody, hce, Function.comp_def]

/-- cid_decomposeAux with enough fuel yields a genuine decomposition: it
reassembles to the input, its leading gap contains no match, and its
segment list is well formed (each listed token a non-empty maximal match,
no match hidden in any gap). -/
theorem cid_decomposeAux_spec :
    ∀ (fuel : Nat) (l : List Char), l.length ≤ fuel →
      cid_text (cid_decomposeAux fuel l).1 (cid_decomposeAux fuel l).2 = l
      ∧ noCidMatchWithin (cid_decomposeAux fuel l).1.length l = true
      ∧ cid_segs_wf (cid_decomposeAux fuel l).2 = true := by
  intro fuel
  induction fuel with
  | zero =>
    intro l hl
    have h0 : l = [] := List.length_eq_zero.mp (Nat.le_zero.mp hl)
    subst h0
    exact ⟨rfl, rfl, rfl⟩
  | succ f ih =>
    intro l hl
    cases l with
    | nil => exact ⟨rfl, rfl, rfl⟩
    | cons c rest =>
      rw [cid_decomposeAux]
      by_cases hm : cidMatchAt (c :: rest) = true
      · rw [if_pos hm]
        have hm2 := hm
        unfold cidMatchAt at hm2
        rw [Bool.and_eq_true] at hm2
        obtain ⟨hpre, htokhead⟩ := hm2
        obtain ⟨t, htt⟩ := List.isPrefixOf_iff_prefix.mp hpre
        have htt2 : 'c' :: 'i' :: 'd' :: ':' :: t = c :: rest := htt
        injection htt2 with hc hrest
        subst hc
        subst hrest
        have hdlen := length_dropWhile_le_self tokenChar t
        have hl2 : (t.dropWhile tokenChar).length ≤ f := by
          simp at hl
          omega
        obtain ⟨ih1, ih2, ih3⟩ := ih (t.dropWhile tokenChar) hl2
        have hga : (cid_decomposeAux f (t.dropWhile tokenChar)).1
            ++ segsText (cid_decomposeAux f (t.dropWhile tokenChar)).2
            = t.dropWhile tokenChar := ih1
        have htok : tokenChar (t.headD ' ') = true := htokhead
        refine ⟨?_, rfl, ?_⟩
        · show ('c' :: 'i' :: 'd' :: ':' ::
              ((List.takeWhile tokenChar t
                  ++ (cid_decomposeAux f (t.dropWhile tokenChar)).1)
                ++ segsText (cid_decomposeAux f (t.dropWhile tokenChar)).2))
            = 'c' :: 'i' :: 'd' :: ':' :: t
          rw [List.append_assoc, hga, List.takeWhile_append_dropWhile]
        · rw [cid_segs_wf]
          simp only [Bool.and_eq_true]
          refine ⟨⟨⟨⟨?_, ?_⟩, ?_⟩, ?_⟩, ih3⟩
          · cases t with
            | nil => exact absurd htok (by decide)
            | cons u us =>
              have htoku : tokenChar u = true := htok
              rw [show (('i' :: 'd' :: ':' :: (u :: us)).drop 3) = u :: us
                from rfl]
              rw [List.takeWhile_cons]
              simp [htoku]
          · rw [List.all_eq_true]
            intro c hc
            exact List.mem_takeWhile_imp hc
          · rw [show (('i' :: 'd' :: ':' :: t).drop 3) = t from rfl, hga]
            exact headNotToken_dropWhile t
          · rw [show (('i' :: 'd' :: ':' :: t).drop 3) = t from rfl, hga]
            exact ih2
      · rw [if_neg hm]
        have hl2 : rest.length ≤ f := by
          simp at hl
          omega
        obtain ⟨ih1, ih2, ih3⟩ := ih rest hl2
        have hra : (cid_decomposeAux f rest).1
            ++ segsText (cid_decomposeAux f rest).2 = rest := ih1
        refine ⟨?_, ?_, ih3⟩
        · simp [cid_text, hra]
        · show noCidMatchWithin ((c :: (cid_decomposeAux f rest).1).length)
            (c :: rest) = true
          rw [List.length_cons, noCidMatchWithin, Bool.and_eq_true]
          have hm2 : cidMatchAt (c :: rest) = false := by simpa using hm
          exact ⟨by simp [hm2], ih2⟩

/-- Every body text genuinely decomposes into its leading match-free gap
and its list of maximal matches. -/
theorem cid_decompose_spec (l : List Char) :
    cid_text (cid_decompose l).1 (cid_decompose l).2 = l
    ∧ noCidMatchWithin (cid_decompose l).1.length l = true
    ∧ cid_segs_wf (cid_decompose l).2 = true :=
  cid_decomposeAux_spec l.length l (Nat.le_refl _)

/-- Claim C4: for every decoded HTML body, the Body Resolver substitutes
every substring matching the cid:token pattern.  The body decomposes as a
leading gap in which no match starts, followed by its matches — non-empty
maximal token runs — each with its following match-free gap (conjuncts one
to three, computed by cid_decompose); the resolver's output is exactly the
per-match fold cid_expected over those references: each token is resolved
first by Content-ID (bare or bracketed form), falling back to the
content-type name parameter equal to the token; a resolved (base64) part
replaces its reference by the data: URI carrying the sniffed MIME type and
the CR/LF/TAB-stripped base64 payload and is added to the consumed set
returned with the transformed text; an unresolved token is replaced by the
literal broken and adds one warning. -/
theorem handle_html_cid_substitution
    (dec : List Nat → String → Option String) (detect : List Nat → String)
    (sniff : List Nat → String) (message : Message) (part : Part)
    (payload : String)
    (hdec : dec part.payloadBytes (charsetOrUtf8 part.contentCharset)
      = some payload) :
    cid_text (cid_decompose payload.data).1 (cid_decompose payload.data).2
        = payload.data
    ∧ noCidMatchWithin (cid_decompose payload.data).1.length payload.data
        = true
    ∧ cid_segs_wf (cid_decompose payload.data).2 = true
    ∧ handle_html_message_body dec detect sniff message part
        = (cid_expected sniff message [] 0 (cid_decompose payload.data).2).map
            (fun r => (⟨(cid_decompose payload.data).1 ++ r.1⟩, r.2)) := by
  obtain ⟨h1, h2, h3⟩ := cid_decompose_spec payload.data
  refine ⟨h1, h2, h3, ?_⟩
  unfold handle_html_message_body
  simp only [hdec]
  have h2b : noCidMatchWithin (cid_decompose payload.data).1.length
      (cid_text (cid_decompose payload.data).1 (cid_decompose payload.data).2)
      = true := by
    rw [h1]
    exact h2
  have hscan := scan_cids_full sniff message (cid_decompose payload.data).2
    (cid_decompose payload.data).1 h2b h3 [] 0
  rw [h1] at hscan
  rw [hscan]
  cases cid_expected sniff message [] 0 (cid_decompose payload.data).2 <;>
    simp [Function.comp_def]

/-- Witness for C4: the canonical body img src equals cid:im1 (whose prefix
contains the letter c) resolves against the bracketed Content-ID of the
witness part and embeds its data URI, keeping the trailing gap. -/
theorem handle_html_cid_substitution_witness :
    handle_html_message_body (fun _ _ => some "<img src=\"cid:im1\">")
        (fun _ => "") (fun _ => "image/png") [cidExamplePart] { pid := 0 }
      = some ("<img src=\"data:image/png;base64,QUJD\">",
          [cidExamplePart], 0) := by
  have h := (handle_html_cid_substitution
      (fun _ _ => some "<img src=\"cid:im1\">") (fun _ => "")
      (fun _ => "image/png") [cidExamplePart] { pid := 0 }
      "<img src=\"cid:im1\">" rfl).2.2.2
  rw [h]
  decide

/-! ### C7: unique-filename generation -/

theorem char_digit_val (d : Nat) (hd : d < 10) :
    (Char.ofNat (d + 48)).toNat - 48 = d := by
  interval_cases d <;> decide

theorem digitsVal_natReprAux :
    ∀ (fuel n : Nat), n ≤ fuel → digitsVal (natReprAux fuel n) = n := by
  intro fuel
  induction fuel with
  | zero =>
    intro n hn
    have : n = 0 := Nat.le_zero.mp hn
    subst this
    rfl
  | succ f ih =>
    intro n hn
    match n with
    | 0 => rfl
    | m + 1 =>
      have hdivlt : (m + 1) / 10 < m + 1 :=
        Nat.div_lt_self (Nat.succ_pos m) (by omega)
      have hdiv : (m + 1) / 10 ≤ f := by omega
      rw [natReprAux]
      simp only [digitsVal]
      rw [ih _ hdiv, char_digit_val _ (Nat.mod_lt _ (by omega))]
      omega

theorem natRepr_data_ne_nil (n : Nat) : (natRepr n).data ≠ [] := by
  unfold natRepr
  split
  · decide
  · rename_i h
    have hn : n ≠ 0 := by
      intro h0
      rw [h0] at h
      exact h rfl
    match n, hn with
    | m + 1, _ =>
      rw [natReprAux]
      simp

theorem natRepr_inj (a b : Nat) (h : natRepr a = natRepr b) : a = b := by
  have hva : ∀ m : Nat, m ≠ 0 →
      digitsVal ((natRepr m).data.reverse) = m := by
    intro m hm
    unfold natRepr
    rw [if_neg (by simpa using hm)]
    rw [show (⟨(natReprAux m m).reverse⟩ : String).data
        = (natReprAux m m).reverse from rfl]
    rw [List.reverse_reverse]
    exact digitsVal_natReprAux m m (Nat.le_refl m)
  by_cases ha : a = 0 <;> by_cases hb : b = 0
  · rw [ha, hb]
  · exfalso
    have h0 : natRepr 0 = "0" := rfl
    rw [ha, h0] at h
    have := hva b hb
    rw [← h] at this
    simp only [show ("0" : String).data.reverse = ['0'] from rfl] at this
    have h1 : digitsVal ['0'] = 0 := by decide
    rw [h1] at this
    exact hb this.symm
  · exfalso
    have h0 : natRepr 0 = "0" := rfl
    rw [hb, h0] at h
    have := hva a ha
    rw [h] at this
    simp only [show ("0" : String).data.reverse = ['0'] from rfl] at this
    have h1 : digitsVal ['0'] = 0 := by decide
    rw [h1] at this
    exact ha this.symm
  · have h1 := hva a ha
    have h2 := hva b hb
    rw [h, h2] at h1
    exact h1.symm

theorem natRepr_length_pos (n : Nat) : 0 < (natRepr n).length :=
  List.length_pos.mpr (natRepr_data_ne_nil n)

/-- Probed candidate names with distinct counters are distinct. -/
theorem uniqueCand_inj (base ext : String) (a b : Nat)
    (h : base ++ "_" ++ natRepr a ++ ext = base ++ "_" ++ natRepr b ++ ext) :
    a = b := by
  apply natRepr_inj
  apply String.ext
  have hd := congrArg String.data h
  simp only [String.data_append, List.append_assoc] at hd
  have h1 := List.append_cancel_left hd
  have h2 := List.append_cancel_left h1
  exact List.append_cancel_right h2

/-- No probed candidate collides with the original filename: the candidate is
strictly longer (it inserts an underscore and at least one digit). -/
theorem uniqueCand_ne (base ext filename : String)
    (hcat : base ++ ext = filename) (n : Nat) :
    base ++ "_" ++ natRepr n ++ ext ≠ filename := by
  intro h
  have h1 : (base ++ "_" ++ natRepr n ++ ext).length = filename.length :=
    congrArg String.length h
  rw [← hcat] at h1
  simp only [String.length_append] at h1
  have h2 := natRepr_length_pos n
  have h3 : ("_" : String).length = 1 := rfl
  omega

/-- splitext reassembles to the original path. -/
theorem splitext_concat (p : String) : (splitext p).1 ++ (splitext p).2 = p := by
  unfold splitext
  simp only []
  cases h : lastIdxOf '.' p.data with
  | none => simp
  | some dotIndex =>
    simp only []
    split
    · apply String.ext
      rw [String.data_append]
      exact List.take_append_drop dotIndex p.data
    · simp

/-- The specification of the probing loop.  l over-approximates the part of
the filesystem that the probe sequence can still hit; the fuel l.length + 1
then suffices, because every probe that consumes fuel removes one element of
l (the probed names are pairwise distinct and distinct from filename). -/
theorem get_unique_version_aux_spec (fs : List String) (base ext : String) :
    ∀ (l : List String) (filename : String) (counter : Nat),
      (∀ x ∈ fs,
        (x = filename ∨ ∃ n, counter ≤ n ∧ x = base ++ "_" ++ natRepr n ++ ext) →
        x ∈ l) →
      (∀ n, counter ≤ n → base ++ "_" ++ natRepr n ++ ext ≠ filename) →
      (get_unique_version_aux fs base ext (l.length + 1) filename counter ∉ fs)
      ∧ (filename ∉ fs →
          get_unique_version_aux fs base ext (l.length + 1) filename counter
            = filename)
      ∧ (filename ∈ fs → ∃ N, counter ≤ N
          ∧ get_unique_version_aux fs base ext (l.length + 1) filename counter
              = base ++ "_" ++ natRepr N ++ ext
          ∧ (base ++ "_" ++ natRepr N ++ ext) ∉ fs
          ∧ ∀ m, counter ≤ m → m < N →
              (base ++ "_" ++ natRepr m ++ ext) ∈ fs) := by
  have H : ∀ (k : Nat) (l : List String), l.length = k →
      ∀ (filename : String) (counter : Nat),
      (∀ x ∈ fs,
        (x = filename ∨ ∃ n, counter ≤ n ∧ x = base ++ "_" ++ natRepr n ++ ext) →
        x ∈ l) →
      (∀ n, counter ≤ n → base ++ "_" ++ natRepr n ++ ext ≠ filename) →
      (get_unique_version_aux fs base ext (l.length + 1) filename counter ∉ fs)
      ∧ (filename ∉ fs →
          get_unique_version_aux fs base ext (l.length + 1) filename counter
            = filename)
      ∧ (filename ∈ fs → ∃ N, counter ≤ N
          ∧ get_unique_version_aux fs base ext (l.length + 1) filename counter
              = base ++ "_" ++ natRepr N ++ ext
          ∧ (base ++ "_" ++ natRepr N ++ ext) ∉ fs
          ∧ ∀ m, counter ≤ m → m < N →
              (base ++ "_" ++ natRepr m ++ ext) ∈ fs) := by
    intro k
    induction k using Nat.strong_induction_on with
    | _ k ih =>
      intro l hlen filename counter hcov hfresh
      rw [get_unique_version_aux]
      by_cases hmem : filename ∈ fs
      · rw [if_pos hmem]
        have hfl : filename ∈ l := hcov filename hmem (Or.inl rfl)
        have hlpos : 0 < l.length := List.length_pos_of_mem hfl
        have herase : (l.erase filename).length = l.length - 1 :=
          List.length_erase_of_mem hfl
        have hlen2 : l.length = (l.erase filename).length + 1 := by omega
        have hcov2 : ∀ x ∈ fs,
            (x = base ++ "_" ++ natRepr counter ++ ext
              ∨ ∃ n, counter + 1 ≤ n ∧ x = base ++ "_" ++ natRepr n ++ ext) →
            x ∈ l.erase filename := by
          intro x hx hcase
          have hex : ∃ n, counter ≤ n ∧ x = base ++ "_" ++ natRepr n ++ ext := by
            rcases hcase with hc | ⟨n, hn, hxn⟩
            · exact ⟨counter, Nat.le_refl counter, hc⟩
            · exact ⟨n, by omega, hxn⟩
          obtain ⟨n, hn, hxn⟩ := hex
          have hxl : x ∈ l := hcov x hx (Or.inr ⟨n, hn, hxn⟩)
          have hxne : x ≠ filename := by
            rw [hxn]
            exact hfresh n hn
          exact (List.mem_erase_of_ne hxne).mpr hxl
        have hfresh2 : ∀ n, counter + 1 ≤ n →
            base ++ "_" ++ natRepr n ++ ext
              ≠ base ++ "_" ++ natRepr counter ++ ext := by
          intro n hn heq
          have := uniqueCand_inj base ext n counter heq
          omega
        have hrec := ih (l.erase filename).length (by omega) (l.erase filename) rfl
          (base ++ "_" ++ natRepr counter ++ ext) (counter + 1) hcov2 hfresh2
        rw [hlen2]
        refine ⟨hrec.1, fun hnot => absurd hmem hnot, fun _ => ?_⟩
        by_cases hcc : (base ++ "_" ++ natRepr counter ++ ext) ∈ fs
        · obtain ⟨N, hN1, hN2, hN3, hN4⟩ := hrec.2.2 hcc
          refine ⟨N, by omega, hN2, hN3, ?_⟩
          intro m hm1 hm2
          by_cases hmc : m = counter
          · rw [hmc]; exact hcc
          · exact hN4 m (by omega) hm2
        · refine ⟨counter, Nat.le_refl counter, hrec.2.1 hcc, hcc, ?_⟩
          intro m hm1 hm2
          omega
      · rw [if_neg hmem]
        exact ⟨hmem, fun _ => rfl, fun hin => absurd hin hmem⟩
  intro l
  exact H l.length l rfl

/-- Claim C7: get_unique_version returns the candidate path itself when no
file of that name exists; otherwise it returns the path obtained by
inserting the suffix underscore-N before the extension for the least N from
1, 2, ... whose path does not exist; the returned path never names an
existing file. -/
theorem get_unique_version_spec (fs : List String) (filename : String) :
    (get_unique_version fs filename ∉ fs)
    ∧ (filename ∉ fs → get_unique_version fs filename = filename)
    ∧ (filename ∈ fs → ∃ N, 1 ≤ N
        ∧ get_unique_version fs filename
            = (splitext filename).1 ++ "_" ++ natRepr N ++ (splitext filename).2
        ∧ ((splitext filename).1 ++ "_" ++ natRepr N ++ (splitext filename).2)
            ∉ fs
        ∧ ∀ m, 1 ≤ m → m < N →
            ((splitext filename).1 ++ "_" ++ natRepr m ++ (splitext filename).2)
              ∈ fs) := by
  have h := get_unique_version_aux_spec fs (splitext filename).1
    (splitext filename).2 fs filename 1
    (fun x hx _ => hx)
    (fun n _ => uniqueCand_ne (splitext filename).1 (splitext filename).2
      filename (splitext_concat filename) n)
  exact h

/-- Witness for C7: a concrete filesystem holding the candidate and its
first suffixed variant; the spec forces the returned name off both. -/
theorem get_unique_version_spec_witness :
    (get_unique_version ["d/x.txt", "d/x_1.txt"] "d/x.txt"
        ∉ ["d/x.txt", "d/x_1.txt"])
    ∧ ("d/x.txt" ∉ ["d/x.txt", "d/x_1.txt"] →
        get_unique_version ["d/x.txt", "d/x_1.txt"] "d/x.txt" = "d/x.txt")
    ∧ ("d/x.txt" ∈ ["d/x.txt", "d/x_1.txt"] → ∃ N, 1 ≤ N
        ∧ get_unique_version ["d/x.txt", "d/x_1.txt"] "d/x.txt"
            = (splitext "d/x.txt").1 ++ "_" ++ natRepr N ++ (splitext "d/x.txt").2
        ∧ ((splitext "d/x.txt").1 ++ "_" ++ natRepr N ++ (splitext "d/x.txt").2)
            ∉ ["d/x.txt", "d/x_1.txt"]
        ∧ ∀ m, 1 ≤ m → m < N →
            ((splitext "d/x.txt").1 ++ "_" ++ natRepr m ++ (splitext "d/x.txt").2)
              ∈ ["d/x.txt", "d/x_1.txt"]) :=
  get_unique_version_spec ["d/x.txt", "d/x_1.txt"] "d/x.txt"

end Email2pdf
